import Mathlib

/-!
Verification of the speck record/replay cassette engine against its
natural-language specification.

The definitions below are a shallow embedding of the Rust sources:

* `src/cassette/format.rs`   — `Interaction`, `Cassette`
* `src/cassette/replayer.rs` — `CassetteReplayer::new`, `next_interaction`
* `src/cassette/recorder.rs` — `CassetteRecorder::new`, `record`, `finish`
* `src/adapters/replaying/*.rs` — `extract_result`, `replay_result`
* `src/adapters/recording/mod.rs` — `record_result`
* `src/context.rs`           — `ServiceContext::live`, `ServiceContext::recording`
* `src/plan/reconcile.rs`    — `detect_circular_dependencies`, `dfs_find_cycles`
* `src/linkage/resolve.rs`   — `resolve`, `find_matching_module`
* `src/linkage/drift.rs`     — `detect_drift`, `check_spec_drift`

JSON values (`serde_json::Value`) are modelled by the inductive `Json`;
machine integers are modelled by `Nat` (no arithmetic is performed on them,
so overflow is irrelevant); Rust `HashMap`s keyed by `PortMethodKey` are
modelled by insertion-ordered association lists (lookup ignores order, so
this is extensionally faithful); panics of the replayer are modelled as
values of the error type `ReplayError` carried by `Except`.
-/

namespace Speck

/-- Model of `serde_json::Value`.  Numbers are modelled as integers (the
cassette engine never performs arithmetic on them — it only copies values
and compares string keys), objects as key/value lists in insertion order. -/
inductive Json where
  | null : Json
  | bool (b : Bool) : Json
  | num (n : Int) : Json
  | str (s : String) : Json
  | arr (elems : List Json) : Json
  | obj (fields : List (String × Json)) : Json

/-- `serde_json::Value::get(key)`: on an object, the value of the first field
with the given key; `None` otherwise. -/
def Json.get : Json → String → Option Json
  | .obj fields, key =>
    match fields.find? (fun f => f.1 = key) with
    | some f => some f.2
    | none => none
  | _, _ => none

/-- `serde_json::Value::as_str()`. -/
def Json.asStr : Json → Option String
  | .str s => some s
  | _ => none

/-- `serde_json::Value::as_bool()`. -/
def Json.asBool : Json → Option Bool
  | .bool b => some b
  | _ => none

/-- One recorded call (`Interaction` in `src/cassette/format.rs`).
`seq : u64` is modelled as `Nat`. -/
structure Interaction where
  seq : Nat
  port : String
  method : String
  input : Json
  output : Json

/-- A recorded transcript (`Cassette` in `src/cassette/format.rs`).
`recorded_at : DateTime<Utc>` is modelled as an abstract `Nat` instant. -/
structure Cassette where
  name : String
  recordedAt : Nat
  commit : String
  interactions : List Interaction

/-- Key for indexing interactions by port and method
(`PortMethodKey` in `src/cassette/replayer.rs`). -/
structure PortMethodKey where
  port : String
  method : String
deriving DecidableEq

/-- The `(port, method)` key of an interaction. -/
def Interaction.key (i : Interaction) : PortMethodKey :=
  ⟨i.port, i.method⟩

/-- One step of the bucketing loop in `CassetteReplayer::new`:
`queues.entry(key).or_default().push(interaction)`.  The `HashMap` is
modelled as an association list; a present key has the interaction appended
to its queue, an absent key is added at the end. -/
def insertIntoQueues (queues : List (PortMethodKey × List Interaction))
    (i : Interaction) : List (PortMethodKey × List Interaction) :=
  match queues with
  | [] => [(i.key, [i])]
  | (k, q) :: rest =>
    if k = i.key then (k, q ++ [i]) :: rest
    else (k, q) :: insertIntoQueues rest i

/-- The bucketing loop of `CassetteReplayer::new` over the whole
interaction list. -/
def buildQueues (interactions : List Interaction) :
    List (PortMethodKey × List Interaction) :=
  interactions.foldl insertIntoQueues []

/-- `HashMap::get` on the modelled queue map. -/
def lookupQueue (queues : List (PortMethodKey × List Interaction))
    (k : PortMethodKey) : Option (List Interaction) :=
  match queues.find? (fun kv => kv.1 = k) with
  | some kv => some kv.2
  | none => none

/-- Replayer state (`CassetteReplayer` in `src/cassette/replayer.rs`).
The source keeps `cursors` as a `HashMap` holding exactly the keys of
`queues`, each initialised to 0; since a cursor is only ever read after the
queue lookup for the same key has succeeded, the cursor map is modelled as a
total function that is 0 outside the queue keys. -/
structure CassetteReplayer where
  queues : List (PortMethodKey × List Interaction)
  cursors : PortMethodKey → Nat

/-- `CassetteReplayer::new`: bucket interactions by `(port, method)` in
cassette order and set every cursor to 0. -/
def CassetteReplayer.new (cassette : Cassette) : CassetteReplayer :=
  { queues := buildQueues cassette.interactions, cursors := fun _ => 0 }

/-- The two fatal panics of `next_interaction`, modelled as error values:
`unknownKey` is the "no interactions recorded" panic (listing the available
`port::method` pairs), `exhausted` is the "all N interactions … consumed"
assertion failure (reporting the queue length and the `seq` of its last
interaction). -/
inductive ReplayError where
  | unknownKey (port method : String) (available : List String)
  | exhausted (count : Nat) (lastSeq : Nat) (port method : String)
deriving DecidableEq

/-- `CassetteReplayer::next_interaction`: look up the `(port, method)`
queue (miss is fatal), check the cursor against the queue length (overflow
is fatal), return the interaction at the cursor and advance the cursor. -/
def CassetteReplayer.nextInteraction (r : CassetteReplayer)
    (port method : String) : Except ReplayError (Interaction × CassetteReplayer) :=
  let key : PortMethodKey := ⟨port, method⟩
  match lookupQueue r.queues key with
  | none =>
    .error (.unknownKey port method
      (r.queues.map (fun kv => kv.1.port ++ "::" ++ kv.1.method)))
  | some queue =>
    let cursor := r.cursors key
    if h : cursor < queue.length then
      .ok (queue.get ⟨cursor, h⟩,
        { r with cursors := fun k => if k = key then cursor + 1 else r.cursors k })
    else
      .error (.exhausted queue.length
        ((queue.getLast?.map Interaction.seq).getD 0) port method)

/-- Replay of a whole call sequence: issue `next_interaction` for each
`(port, method)` pair in order, threading the replayer state; a panic
aborts the run with its error. -/
def replayAll : List (String × String) → CassetteReplayer →
    Except ReplayError (List Interaction × CassetteReplayer)
  | [], r => .ok ([], r)
  | (port, method) :: rest, r =>
    match r.nextInteraction port method with
    | .error e => .error e
    | .ok (i, r') =>
      match replayAll rest r' with
      | .error e => .error e
      | .ok (outs, r'') => .ok (i :: outs, r'')

/-- The stream of a `(port, method)` pair: the cassette's interactions with
that port and method, in cassette order. -/
def portMethodStream (c : Cassette) (port method : String) : List Interaction :=
  c.interactions.filter (fun i => i.port = port ∧ i.method = method)

/-- Recorder state (`CassetteRecorder` in `src/cassette/recorder.rs`).
The output path is modelled as its list of components. -/
structure CassetteRecorder where
  path : List String
  name : String
  commit : String
  interactions : List Interaction
  nextSeq : Nat

/-- `CassetteRecorder::new`. -/
def CassetteRecorder.new (path : List String) (name commit : String) :
    CassetteRecorder :=
  { path := path, name := name, commit := commit, interactions := [], nextSeq := 0 }

/-- `CassetteRecorder::record`: append an interaction carrying `seq =
next_seq`, then increment `next_seq`. -/
def CassetteRecorder.record (r : CassetteRecorder)
    (port method : String) (input output : Json) : CassetteRecorder :=
  { r with
    interactions := r.interactions ++ [⟨r.nextSeq, port, method, input, output⟩],
    nextSeq := r.nextSeq + 1 }

/-- A sequence of `record` calls, in order. -/
def recordAll (r : CassetteRecorder)
    (calls : List (String × String × Json × Json)) : CassetteRecorder :=
  calls.foldl (fun r c => r.record c.1 c.2.1 c.2.2.1 c.2.2.2) r

/-- Number of occurrences of a `(port, method)` call in a call list. -/
def countKey (calls : List (String × String)) (x : String × String) : Nat :=
  (calls.filter (fun y => y = x)).length

/-! ### Result envelope (src/adapters/replaying, src/adapters/recording) -/

/-- `extract_result` as defined privately (and identically) in
`src/adapters/replaying/filesystem.rs`, `git.rs`, `issues.rs`, and inlined
in `llm.rs` and `shell.rs`.  `decode` stands for the `serde_json::from_value`
instance of the port's result type `T` (returning `none` on a
deserialization error).  Note it checks only the lowercase `"err"`/`"ok"`
keys. -/
def extractResult {τ : Type} (decode : Json → Option τ)
    (output : Json) (context : String) : Except String τ :=
  match output.get "err" with
  | some err => .error ((err.asStr).getD "unknown error")
  | none =>
    match decode ((output.get "ok").getD output) with
    | some v => .ok v
    | none => .error (context ++ ": failed to deserialize")

/-- `replay_result` from `src/adapters/replaying/mod.rs`: checks `"Err"`
then `"err"`, then `"Ok"` then `"ok"`, then decodes the whole output.
(No replaying adapter in the source calls it.) -/
def replayResult {τ : Type} (decode : Json → Option τ)
    (output : Json) : Except String τ :=
  match (output.get "Err").or (output.get "err") with
  | some errVal => .error ((errVal.asStr).getD "replayed error")
  | none =>
    match (output.get "Ok").or (output.get "ok") with
    | some okVal =>
      match decode okVal with
      | some v => .ok v
      | none => .error "failed to deserialize"
    | none =>
      match decode output with
      | some v => .ok v
      | none => .error "failed to deserialize"

/-- The envelope written by `record_result` in
`src/adapters/recording/mod.rs`: `Ok(v)` becomes `{"Ok": v}` and
`Err(e)` becomes `{"Err": e.to_string()}` (uppercase tags). -/
def recordResultOutput {τ : Type} (encode : τ → Json) :
    Except String τ → Json
  | .ok v => .obj [("Ok", encode v)]
  | .error e => .obj [("Err", .str e)]

/-- The `serde_json` decoder for `String` results (e.g. `fs::read_to_string`). -/
def decodeString : Json → Option String := Json.asStr

/-! ### Service context wiring (src/context.rs) -/

/-- Which adapter family a `ServiceContext` constructor installs in a port
slot.  `live` stands for the real backend (`LiveClock`, `LiveFileSystem`,
…), `panicking` for the panicking stubs defined at the bottom of
`src/context.rs`, `recording` for the decorators under
`src/adapters/recording/`, `replaying` for those under
`src/adapters/replaying/`. -/
inductive AdapterKind where
  | live
  | panicking
  | recording
  | replaying
deriving DecidableEq

/-- The wiring of a `ServiceContext` (src/context.rs): one adapter per port
plus the optional monolithic `CassetteRecorder` (identified by its output
path) that the context flushes on drop. -/
structure ServiceContext where
  clock : AdapterKind
  fs : AdapterKind
  git : AdapterKind
  shell : AdapterKind
  idGen : AdapterKind
  llm : AdapterKind
  issues : AdapterKind
  recorder : Option (List String)
deriving DecidableEq

/-- `ServiceContext::live`: live adapters for clock, fs, git, shell;
panicking stubs for id_gen, llm, issues; no recorder. -/
def ServiceContext.live : ServiceContext :=
  { clock := .live, fs := .live, git := .live, shell := .live,
    idGen := .panicking, llm := .panicking, issues := .panicking,
    recorder := none }

/-- `ServiceContext::recording(path)`: the same adapters as `live`, plus a
single monolithic `CassetteRecorder::new(path, "speck-session", "unknown")`
written to disk when the context is dropped.  It returns only the context
(no `RecordingSession` is constructed and no recording adapter is
installed). -/
def ServiceContext.recording (path : List String) : ServiceContext :=
  { clock := .live, fs := .live, git := .live, shell := .live,
    idGen := .panicking, llm := .panicking, issues := .panicking,
    recorder := some path }

/-! ### Abstract file system for `CassetteRecorder::finish` -/

/-- Structured I/O failure (`std::io::Error` kinds relevant here). -/
inductive IoError where
  | notFound
  | other (msg : String)
deriving DecidableEq

/-- Abstract file-system state: the set of existing directories (each as a
component list; `[]` is the current working directory) and the files with
their contents. -/
structure FsState where
  dirs : List (List String)
  files : List (List String × String)

/-- Model of `std::fs::write`: a plain, non-atomic whole-file write that
requires the parent directory to exist and never creates directories. -/
def fsWrite (st : FsState) (path : List String) (contents : String) :
    Except IoError FsState :=
  if path.dropLast ∈ st.dirs then
    .ok { st with files := (path, contents) :: st.files.filter (fun f => f.1 ≠ path) }
  else
    .error .notFound

/-- `CassetteRecorder::finish` (src/cassette/recorder.rs): build the
cassette from the recorder's state and the current wall clock `now`,
serialize it (`serialize` stands for `serde_yaml::to_string`, whose failure
is mapped to `std::io::Error::other`), and write it with a single plain
`std::fs::write` to the recorder's path, returning the path on success. -/
def CassetteRecorder.finish (serialize : Cassette → Except String String)
    (r : CassetteRecorder) (now : Nat) (st : FsState) :
    Except IoError (FsState × List String) :=
  let cassette : Cassette :=
    { name := r.name, recordedAt := now, commit := r.commit,
      interactions := r.interactions }
  match serialize cassette with
  | .error e => .error (.other e)
  | .ok yaml =>
    match fsWrite st r.path yaml with
    | .error e => .error e
    | .ok st' => .ok (st', r.path)

/-- Add one directory to the file-system state if absent. -/
def addDir (st : FsState) (dir : List String) : FsState :=
  if dir ∈ st.dirs then st else { st with dirs := dir :: st.dirs }

/-- Model of `std::fs::create_dir_all`: create the directory and all its
ancestors. -/
def createDirAll (st : FsState) (dir : List String) : FsState :=
  (List.range (dir.length + 1)).foldl (fun st k => addDir st (dir.take k)) st

/-- Modelled from the spec: §4.C `finish()` "writes atomically to the
output path (creating parent directories if needed)".  This definition
follows the spec's words — create the parent directory chain, then write —
and exists only to be compared with `CassetteRecorder.finish`, the
translation of the source. -/
def CassetteRecorder.finishSpec (serialize : Cassette → Except String String)
    (r : CassetteRecorder) (now : Nat) (st : FsState) :
    Except IoError (FsState × List String) :=
  let cassette : Cassette :=
    { name := r.name, recordedAt := now, commit := r.commit,
      interactions := r.interactions }
  match serialize cassette with
  | .error e => .error (.other e)
  | .ok yaml =>
    match fsWrite (createDirAll st r.path.dropLast) r.path yaml with
    | .error e => .error e
    | .ok st' => .ok (st', r.path)

/-! ### Task specs and cycle detection (src/plan/reconcile.rs) -/

/-- `TaskContext` (src/spec/task_spec.rs); only the fields the verified
functions read. -/
structure TaskContext where
  modules : List String
  patterns : Option String
  dependencies : List String
deriving DecidableEq

/-- `TaskSpec` (src/spec/task_spec.rs); `signal_type` and `verification`
are opaque payload never read by the functions verified here and are
omitted. -/
structure TaskSpec where
  id : String
  title : String
  requirement : Option String
  context : Option TaskContext
  acceptanceCriteria : List String
deriving DecidableEq

/-- The in-set dependencies of a spec: its declared `context.dependencies`
restricted to IDs of the given spec set (the filter inside
`detect_circular_dependencies`). -/
def filteredDeps (specIds : List String) (s : TaskSpec) : List String :=
  ((s.context.map TaskContext.dependencies).getD []).filter
    (fun d => specIds.contains d)

/-- `HashMap::get` on the adjacency map, modelled as an association list. -/
def lookupGraph (graph : List (String × List String)) (node : String) :
    Option (List String) :=
  match graph.find? (fun kv => kv.1 = node) with
  | some kv => some kv.2
  | none => none

/-- `dfs_find_cycles` (src/plan/reconcile.rs): gray-stack / black-visited
DFS.  The source's `on_stack` set always holds exactly the elements of
`stack`, so only `stack` is modelled; the source's recursion is modelled
with a `fuel` parameter (every recursive call is on a freshly visited node,
so any fuel exceeding the number of nodes suffices and the `fuel = 0`
branch is unreachable).  Returns the updated `visited` set and cycle
list; `stack` is passed by value, which models its push-at-entry /
pop-at-exit discipline. -/
def dfsFindCycles (graph : List (String × List String)) :
    Nat → String → List String → List String → List (List String) →
    List String × List (List String)
  | 0, _, visited, _, cycles => (visited, cycles)
  | fuel + 1, node, visited, stack, cycles =>
    let visited := node :: visited
    let stack := stack ++ [node]
    let deps := (lookupGraph graph node).getD []
    deps.foldl
      (fun acc dep =>
        if acc.1.contains dep then
          if stack.contains dep then
            (acc.1, acc.2 ++ [stack.drop (stack.findIdx (fun n => n == dep))])
          else acc
        else dfsFindCycles graph fuel dep acc.1 stack acc.2)
      (visited, cycles)

/-- The adjacency map `detect_circular_dependencies` builds:
`graph.insert(spec.id, deps)` over the spec list, with dependencies
filtered to in-set IDs. -/
def specsGraph (specs : List TaskSpec) : List (String × List String) :=
  specs.map (fun s => (s.id, filteredDeps (specs.map TaskSpec.id) s))

/-- `detect_circular_dependencies` (src/plan/reconcile.rs): build the
in-set adjacency map, then run the DFS from every spec ID not yet visited.
The source iterates the `HashSet` of IDs in unspecified hash order; the
model fixes the spec-list order (one admissible instantiation).  The
source's `HashMap` insert lets a duplicate ID overwrite an earlier entry;
the association-list model keeps the first — the theorems below assume
distinct IDs where the distinction could matter. -/
def detectCircularDependencies (specs : List TaskSpec) : List (List String) :=
  let specIds := specs.map TaskSpec.id
  let graph := specsGraph specs
  (specIds.foldl
    (fun acc id =>
      if acc.1.contains id then acc
      else dfsFindCycles graph (specs.length + 1) id acc.1 [] acc.2)
    ([], [])).2

/-! ### Linkage resolution and drift detection (src/linkage) -/

/-- `ModuleSummary` (src/map/mod.rs). -/
structure ModuleSummary where
  path : String
  publicItems : List String
  dependencies : List String
deriving DecidableEq

/-- `CodebaseMap` (src/map/mod.rs); `generated_at` modelled as `Nat`. -/
structure CodebaseMap where
  commitHash : String
  generatedAt : Nat
  modules : List ModuleSummary
  directoryTree : List String
  testInfrastructure : List String

/-- `ResolvedLink` (src/linkage/resolve.rs). -/
structure ResolvedLink where
  moduleRef : String
  resolvedPath : Option String
deriving DecidableEq

/-- `LinkageResult` (src/linkage/resolve.rs). -/
structure LinkageResult where
  specId : String
  links : List ResolvedLink
deriving DecidableEq

/-- Rust `str::contains(substring)`. -/
def strContainsSub (hay needle : String) : Bool :=
  decide (needle.toList <:+: hay.toList)

/-- Rust `str::to_lowercase()`, modelled character-wise (the module names
and public items it is applied to are ASCII identifiers, where Rust's
Unicode lowercasing and per-character lowercasing agree). -/
def strToLower (s : String) : String := String.mk (s.data.map Char.toLower)

/-- `find_matching_module` (src/linkage/resolve.rs): exact public-item
match, then path substring, then public-item substring — all
case-insensitive. -/
def findMatchingModule (moduleRef : String) (modules : List ModuleSummary) :
    Option String :=
  let needle := strToLower moduleRef
  match modules.find? (fun m => m.publicItems.any
      (fun item => strToLower item = needle)) with
  | some m => some m.path
  | none =>
    match modules.find? (fun m => strContainsSub (strToLower m.path) needle) with
    | some m => some m.path
    | none =>
      match modules.find? (fun m => m.publicItems.any
          (fun item => strContainsSub (strToLower item) needle)) with
      | some m => some m.path
      | none => none

/-- `resolve` (src/linkage/resolve.rs). -/
def resolve (spec : TaskSpec) (codebaseMap : CodebaseMap) : LinkageResult :=
  let modules := (spec.context.map TaskContext.modules).getD []
  { specId := spec.id,
    links := modules.map
      (fun moduleRef =>
        { moduleRef := moduleRef,
          resolvedPath := findMatchingModule moduleRef codebaseMap.modules }) }

/-- `DriftEntry` (src/linkage/drift.rs). -/
structure DriftEntry where
  specId : String
  changedModules : List String
  removedModules : List String
  replanRecommended : Bool
deriving DecidableEq

/-- `DriftReport` (src/linkage/drift.rs). -/
structure DriftReport where
  entries : List DriftEntry
  oldCommit : String
  newCommit : String
deriving DecidableEq

/-- The accumulation loop of `check_spec_drift`: walk the resolved links,
collecting changed and removed module paths. -/
def driftScan (oldMap newMap : CodebaseMap) (links : List ResolvedLink) :
    List String × List String :=
  links.foldl
    (fun acc link =>
      match link.resolvedPath with
      | none => acc
      | some path =>
        match oldMap.modules.find? (fun m => m.path = path),
              newMap.modules.find? (fun m => m.path = path) with
        | some _, none => (acc.1, acc.2 ++ [path])
        | some om, some nm =>
          if om.publicItems ≠ nm.publicItems ∨ om.dependencies ≠ nm.dependencies
          then (acc.1 ++ [path], acc.2)
          else acc
        | _, _ => acc)
    ([], [])

/-- `check_spec_drift` (src/linkage/drift.rs). -/
def checkSpecDrift (linkage : LinkageResult) (oldMap newMap : CodebaseMap) :
    Option DriftEntry :=
  let scanned := driftScan oldMap newMap linkage.links
  if scanned.1 = [] ∧ scanned.2 = [] then none
  else
    some
      { specId := linkage.specId,
        changedModules := scanned.1,
        removedModules := scanned.2,
        replanRecommended := !scanned.2.isEmpty || decide (1 < scanned.1.length) }

/-- `detect_drift` (src/linkage/drift.rs). -/
def detectDrift (specs : List TaskSpec) (oldMap newMap : CodebaseMap) :
    DriftReport :=
  { entries := specs.filterMap
      (fun spec => checkSpecDrift (resolve spec oldMap) oldMap newMap),
    oldCommit := oldMap.commitHash,
    newCommit := newMap.commitHash }

/-! ### Seq reassignment (for the C10 invariance statement) -/

/-- Reassign an interaction's `seq` field, leaving everything else
untouched. -/
def reseqInteraction (f : Nat → Nat) (i : Interaction) : Interaction :=
  { i with seq := f i.seq }

/-- Reassign every `seq` in a cassette. -/
def reseqCassette (f : Nat → Nat) (c : Cassette) : Cassette :=
  { c with interactions := c.interactions.map (reseqInteraction f) }

/-! ### Helper forms used by the theorem statements -/

/-- A replayer over cassette `c` whose cursors are `g`; `CassetteReplayer.new c`
is `replayerOf c (fun _ => 0)`. -/
def replayerOf (c : Cassette) (g : PortMethodKey → Nat) : CassetteReplayer :=
  { queues := buildQueues c.interactions, cursors := g }

/-- An edge of the modelled dependency graph: `b` is among the recorded
dependencies of `a`. -/
def GraphEdge (graph : List (String × List String)) (a b : String) : Prop :=
  ∃ deps, lookupGraph graph a = some deps ∧ b ∈ deps

/-- Drift condition of `check_spec_drift`: the module exists in both maps
with different public items or dependencies. -/
def isChangedModule (oldMap newMap : CodebaseMap) (path : String) : Bool :=
  match oldMap.modules.find? (fun m => m.path = path),
        newMap.modules.find? (fun m => m.path = path) with
  | some om, some nm =>
    decide (om.publicItems ≠ nm.publicItems ∨ om.dependencies ≠ nm.dependencies)
  | _, _ => false

/-- Removal condition of `check_spec_drift`: the module exists in the old
map but not in the new one. -/
def isRemovedModule (oldMap newMap : CodebaseMap) (path : String) : Bool :=
  match oldMap.modules.find? (fun m => m.path = path),
        newMap.modules.find? (fun m => m.path = path) with
  | some _, none => true
  | _, _ => false

/-! ### Concrete data used by witnesses and counterexamples -/

/-- First recorded interaction of the example cassette
(the spec §8 per-stream example `[(p1,m1), (p2,m2), (p1,m1)]`). -/
def wI1 : Interaction := ⟨0, "llm", "complete", .null, .str "O1"⟩

/-- Second recorded interaction of the example cassette. -/
def wI2 : Interaction := ⟨1, "fs", "read", .null, .str "O2"⟩

/-- Third recorded interaction of the example cassette. -/
def wI3 : Interaction := ⟨2, "llm", "complete", .null, .str "O3"⟩

/-- Example cassette with two `llm::complete` interactions around one
`fs::read`. -/
def wCassette : Cassette := ⟨"w", 0, "abc", [wI1, wI2, wI3]⟩

/-- The calls of the per-stream example, in recorded order. -/
def wCalls : List (String × String) :=
  [("llm", "complete"), ("fs", "read"), ("llm", "complete")]

/-- The replayer state after issuing `wCalls` against `wCassette`
(written in the exact shape the run produces, so that the run equation
holds by `rfl`). -/
def wFinal : CassetteReplayer :=
  replayerOf wCassette
    (fun k =>
      if k = ⟨"llm", "complete"⟩ then 2
      else if k = ⟨"fs", "read"⟩ then 1
      else if k = ⟨"llm", "complete"⟩ then 1
      else 0)

/-- The contribution of one resolved link to `check_spec_drift`'s changed
list. -/
def changedOf (oldMap newMap : CodebaseMap) (link : ResolvedLink) : Option String :=
  link.resolvedPath.bind
    (fun path => if isChangedModule oldMap newMap path then some path else none)

/-- The contribution of one resolved link to `check_spec_drift`'s removed
list. -/
def removedOf (oldMap newMap : CodebaseMap) (link : ResolvedLink) : Option String :=
  link.resolvedPath.bind
    (fun path => if isRemovedModule oldMap newMap path then some path else none)

/-- Old snapshot module for the drift example (spec §8 property 10). -/
def wModOld : ModuleSummary := ⟨"src/service.rs", ["MyService"], []⟩

/-- New snapshot module with an extra public item. -/
def wModNew : ModuleSummary := ⟨"src/service.rs", ["MyService", "NewHelper"], []⟩

/-- Old codebase map holding `wModOld`. -/
def wMapOld : CodebaseMap := ⟨"aaa", 0, [wModOld], [], []⟩

/-- New codebase map where the module's public items changed. -/
def wMapNew : CodebaseMap := ⟨"bbb", 0, [wModNew], [], []⟩

/-- New codebase map where the module was removed. -/
def wMapGone : CodebaseMap := ⟨"ccc", 0, [], [], []⟩

/-- A task spec referencing `MyService`. -/
def wSpecT1 : TaskSpec := ⟨"T-1", "Task 1", none, some ⟨["MyService"], none, []⟩, ["done"]⟩

/-- Old map with two modules, for the multiple-changes example. -/
def wMapTwoOld : CodebaseMap :=
  ⟨"aaa", 0, [⟨"src/a.rs", ["ServiceA"], []⟩, ⟨"src/b.rs", ["ServiceB"], []⟩], [], []⟩

/-- New map where both modules changed (one in public items, one in
dependencies). -/
def wMapTwoNew : CodebaseMap :=
  ⟨"bbb", 0, [⟨"src/a.rs", ["ServiceA", "Extra"], []⟩,
    ⟨"src/b.rs", ["ServiceB"], ["new_dep"]⟩], [], []⟩

/-- A task spec referencing both changed modules. -/
def wSpecT2 : TaskSpec :=
  ⟨"T-2", "Task 2", none, some ⟨["ServiceA", "ServiceB"], none, []⟩, ["done"]⟩

/-- Spec `T1` of the two-node dependency cycle example. -/
def wCycS1 : TaskSpec := ⟨"T1", "Task 1", none, some ⟨[], none, ["T2"]⟩, []⟩

/-- Spec `T2` of the two-node dependency cycle example. -/
def wCycS2 : TaskSpec := ⟨"T2", "Task 2", none, some ⟨[], none, ["T1"]⟩, []⟩

/-- The two-node cycle `T1 → T2 → T1`. -/
def wCycSpecs : List TaskSpec := [wCycS1, wCycS2]

/-- A one-spec DAG with no dependencies. -/
def wDagSpecs : List TaskSpec := [⟨"A", "Task A", none, none, []⟩]

/-- Two specs where `T1` declares a dependency on an ID outside the set. -/
def wExtSpecs : List TaskSpec :=
  [⟨"T1", "Task 1", none, some ⟨[], none, ["EXTERNAL"]⟩, []⟩,
   ⟨"T2", "Task 2", none, some ⟨[], none, ["T1"]⟩, []⟩]

/-- The same two specs with the external dependency dropped. -/
def wNoExtSpecs : List TaskSpec :=
  [⟨"T1", "Task 1", none, some ⟨[], none, []⟩, []⟩,
   ⟨"T2", "Task 2", none, some ⟨[], none, ["T1"]⟩, []⟩]

/-- A stand-in for `serde_yaml::to_string` used by concrete instantiations
(the engine treats serialization as an opaque external function). -/
def wSerialize : Cassette → Except String String := fun _ => .ok "yaml-text"

/-- A recorder whose output path has a parent directory `out/`. -/
def wRecNoParent : CassetteRecorder :=
  CassetteRecorder.new ["out", "x.yaml"] "n" "c"

/-- A recorder writing directly into the working directory. -/
def wRecRoot : CassetteRecorder := CassetteRecorder.new ["y.yaml"] "n" "c"

/-- A file-system state holding only the working directory. -/
def wFs : FsState := { dirs := [[]], files := [] }

/-! ## Replayer bucketing lemmas -/

theorem lookupQueue_nil (k : PortMethodKey) : lookupQueue [] k = none := rfl

theorem lookupQueue_cons (k' : PortMethodKey) (q : List Interaction)
    (rest : List (PortMethodKey × List Interaction)) (k : PortMethodKey) :
    lookupQueue ((k', q) :: rest) k =
      if k' = k then some q else lookupQueue rest k := by
  by_cases h : k' = k <;> simp [lookupQueue, List.find?_cons, h]

theorem lookupQueue_insertIntoQueues
    (qs : List (PortMethodKey × List Interaction)) (i : Interaction)
    (k : PortMethodKey) :
    lookupQueue (insertIntoQueues qs i) k =
      if k = i.key then some ((lookupQueue qs k).getD [] ++ [i])
      else lookupQueue qs k := by
  induction qs with
  | nil =>
    by_cases h : k = i.key
    · simp [insertIntoQueues, lookupQueue_cons, lookupQueue_nil, h]
    · have h' : ¬ i.key = k := fun hh => h hh.symm
      simp [insertIntoQueues, lookupQueue_cons, lookupQueue_nil, h, h']
  | cons kv rest ih =>
    obtain ⟨k', q'⟩ := kv
    by_cases h1 : k' = i.key
    · subst h1
      by_cases h2 : k = i.key
      · simp [insertIntoQueues, lookupQueue_cons, h2]
      · have h2' : ¬ i.key = k := fun hh => h2 hh.symm
        simp [insertIntoQueues, lookupQueue_cons, h2, h2']
    · by_cases h3 : k' = k
      · have h4 : ¬ k = i.key := fun hh => h1 (h3.trans hh)
        simp [insertIntoQueues, lookupQueue_cons, h1, h3, h4]
      · simp [insertIntoQueues, lookupQueue_cons, h1, h3, ih]

theorem lookupQueue_foldl (l : List Interaction)
    (qs : List (PortMethodKey × List Interaction)) (k : PortMethodKey) :
    lookupQueue (l.foldl insertIntoQueues qs) k =
      match lookupQueue qs k with
      | some q => some (q ++ l.filter (fun i => i.key = k))
      | none =>
        if (l.filter (fun i => i.key = k)).isEmpty then none
        else some (l.filter (fun i => i.key = k)) := by
  induction l generalizing qs with
  | nil => cases h : lookupQueue qs k <;> simp [h]
  | cons i rest ih =>
    rw [List.foldl_cons, ih, lookupQueue_insertIntoQueues]
    by_cases hk : i.key = k
    · rw [if_pos hk.symm]
      cases h : lookupQueue qs k <;> simp [List.filter_cons, hk]
    · rw [if_neg (fun hh => hk hh.symm)]
      cases h : lookupQueue qs k <;> simp [List.filter_cons, hk]

theorem portMethodStream_eq_filter_key (c : Cassette) (p m : String) :
    portMethodStream c p m =
      c.interactions.filter (fun i => i.key = PortMethodKey.mk p m) := by
  unfold portMethodStream
  apply List.filter_congr
  intro i _
  simp [Interaction.key, PortMethodKey.mk.injEq]

theorem lookupQueue_buildQueues (c : Cassette) (p m : String) :
    lookupQueue (buildQueues c.interactions) ⟨p, m⟩ =
      if (portMethodStream c p m).isEmpty then none
      else some (portMethodStream c p m) := by
  unfold buildQueues
  rw [lookupQueue_foldl]
  rw [portMethodStream_eq_filter_key]
  simp [lookupQueue_nil]

/-! ## Replayer dispatch lemmas -/

theorem nextInteraction_unknown (c : Cassette) (g : PortMethodKey → Nat)
    (p m : String) (hs : (portMethodStream c p m).isEmpty = true) :
    (replayerOf c g).nextInteraction p m =
      .error (.unknownKey p m ((buildQueues c.interactions).map
        (fun kv => kv.1.port ++ "::" ++ kv.1.method))) := by
  have hq : lookupQueue (buildQueues c.interactions) ⟨p, m⟩ = none := by
    rw [lookupQueue_buildQueues, hs]
    rfl
  simp [CassetteReplayer.nextInteraction, replayerOf, hq]

theorem nextInteraction_mid (c : Cassette) (g : PortMethodKey → Nat)
    (p m : String) (hlt : g ⟨p, m⟩ < (portMethodStream c p m).length) :
    (replayerOf c g).nextInteraction p m =
      .ok ((portMethodStream c p m).get ⟨g ⟨p, m⟩, hlt⟩,
        replayerOf c (fun k => if k = ⟨p, m⟩ then g ⟨p, m⟩ + 1 else g k)) := by
  have hne : (portMethodStream c p m).isEmpty = false := by
    cases hsl : portMethodStream c p m with
    | nil => rw [hsl] at hlt; exact absurd hlt (by simp)
    | cons a l => rfl
  have hq : lookupQueue (buildQueues c.interactions) ⟨p, m⟩ =
      some (portMethodStream c p m) := by
    rw [lookupQueue_buildQueues, hne]
    rfl
  simp [CassetteReplayer.nextInteraction, replayerOf, hq, hlt]

theorem nextInteraction_exhausted (c : Cassette) (g : PortMethodKey → Nat)
    (p m : String) (hne : (portMethodStream c p m).isEmpty = false)
    (hge : (portMethodStream c p m).length ≤ g ⟨p, m⟩) :
    (replayerOf c g).nextInteraction p m =
      .error (.exhausted (portMethodStream c p m).length
        (((portMethodStream c p m).getLast?.map Interaction.seq).getD 0) p m) := by
  have hq : lookupQueue (buildQueues c.interactions) ⟨p, m⟩ =
      some (portMethodStream c p m) := by
    rw [lookupQueue_buildQueues, hne]
    rfl
  simp [CassetteReplayer.nextInteraction, replayerOf, hq, Nat.not_lt.mpr hge]

theorem countKey_nil (x : String × String) : countKey [] x = 0 := rfl

theorem countKey_cons (y : String × String) (l : List (String × String))
    (x : String × String) :
    countKey (y :: l) x = countKey l x + if y = x then 1 else 0 := by
  by_cases h : y = x <;> simp [countKey, List.filter_cons, h, Nat.add_comm]

/-- Core indexing lemma: in a successful replay run from cursor state `g`,
the `j`-th returned interaction is the element of its call's stream at
index `g(key) + number of earlier identical calls`. -/
theorem replayAll_index (c : Cassette) (calls : List (String × String))
    (g : PortMethodKey → Nat) (outs : List Interaction) (rf : CassetteReplayer)
    (h : replayAll calls (replayerOf c g) = .ok (outs, rf)) :
    ∀ j (hj : j < calls.length),
      outs[j]? =
        (portMethodStream c (calls.get ⟨j, hj⟩).1 (calls.get ⟨j, hj⟩).2)[
          g ⟨(calls.get ⟨j, hj⟩).1, (calls.get ⟨j, hj⟩).2⟩ +
            countKey (calls.take j) (calls.get ⟨j, hj⟩)]? := by
  induction calls generalizing g outs rf with
  | nil => intro j hj; exact absurd hj (by simp)
  | cons pm rest ih =>
    obtain ⟨p, m⟩ := pm
    rw [replayAll] at h
    by_cases hs : (portMethodStream c p m).isEmpty = true
    · rw [nextInteraction_unknown c g p m hs] at h
      exact absurd h (by simp)
    · have hne : (portMethodStream c p m).isEmpty = false :=
        Bool.eq_false_iff.mpr hs
      by_cases hlt : g ⟨p, m⟩ < (portMethodStream c p m).length
      · rw [nextInteraction_mid c g p m hlt] at h
        dsimp only at h
        cases hrest : replayAll rest
            (replayerOf c (fun k => if k = ⟨p, m⟩ then g ⟨p, m⟩ + 1 else g k)) with
        | error e =>
          rw [hrest] at h
          exact absurd h (by simp)
        | ok pr =>
          obtain ⟨outs1, r1⟩ := pr
          rw [hrest] at h
          simp only [Except.ok.injEq, Prod.mk.injEq] at h
          obtain ⟨houts, -⟩ := h
          subst houts
          intro j hj
          match j with
          | 0 =>
            simp [countKey_nil, List.getElem?_eq_getElem hlt]
          | Nat.succ j' =>
            have hj' : j' < rest.length := by simpa using hj
            have hx := ih _ outs1 r1 hrest j' hj'
            have hget : ((p, m) :: rest).get ⟨j' + 1, hj⟩ = rest.get ⟨j', hj'⟩ :=
              rfl
            rw [hget]
            have hl : ((portMethodStream c p m).get ⟨g ⟨p, m⟩, hlt⟩ ::
                outs1)[j' + 1]? = outs1[j']? := List.getElem?_cons_succ
            rw [hl, hx]
            congr 1
            rw [List.take_succ_cons, countKey_cons]
            by_cases hxy : rest.get ⟨j', hj'⟩ = (p, m)
            · rw [hxy]
              simp
              omega
            · have hkey : (⟨(rest.get ⟨j', hj'⟩).1, (rest.get ⟨j', hj'⟩).2⟩ :
                  PortMethodKey) ≠ ⟨p, m⟩ := by
                intro hc
                apply hxy
                have h1 : (rest.get ⟨j', hj'⟩).1 = p := congrArg PortMethodKey.port hc
                have h2 : (rest.get ⟨j', hj'⟩).2 = m := congrArg PortMethodKey.method hc
                exact Prod.ext h1 h2
              have hyx : ¬ (p, m) = rest.get ⟨j', hj'⟩ := fun hh => hxy hh.symm
              rw [if_neg hkey, if_neg hyx]
              omega
      · rw [nextInteraction_exhausted c g p m hne (Nat.not_lt.mp hlt)] at h
        exact absurd h (by simp)

theorem new_eq_replayerOf (c : Cassette) :
    CassetteReplayer.new c = replayerOf c (fun _ => 0) := rfl

/-- C1: the k-th call to `next_interaction(port, method)` on a replayer
built from cassette `c` returns the k-th interaction of `c` with that port
and method in recorded relative order, however calls to other
`(port, method)` pairs are interleaved; since `replayAll` is a pure
function of the cassette and the call list, two replays of the same
cassette issuing the same call sequence therefore produce identical
outputs. -/
theorem replay_per_stream_order (c : Cassette) (calls : List (String × String))
    (outs : List Interaction) (rf : CassetteReplayer)
    (h : replayAll calls (CassetteReplayer.new c) = .ok (outs, rf))
    (j : Nat) (hj : j < calls.length) :
    outs[j]? =
      (portMethodStream c (calls.get ⟨j, hj⟩).1 (calls.get ⟨j, hj⟩).2)[
        countKey (calls.take j) (calls.get ⟨j, hj⟩)]? := by
  rw [new_eq_replayerOf] at h
  have hx := replayAll_index c calls (fun _ => 0) outs rf h j hj
  simpa using hx

/-- Witness for C1: the third call of the example run (the second
`llm::complete` call) returns the second interaction of the
`llm::complete` stream. -/
theorem replay_per_stream_order_witness :
    ([wI1, wI2, wI3] : List Interaction)[2]? =
      (portMethodStream wCassette (wCalls.get ⟨2, by decide⟩).1
          (wCalls.get ⟨2, by decide⟩).2)[
        countKey (wCalls.take 2) (wCalls.get ⟨2, by decide⟩)]? :=
  replay_per_stream_order wCassette wCalls [wI1, wI2, wI3] wFinal rfl 2 (by decide)

/-! ## Replay composition and exhaustion -/

theorem replayAll_append (l1 l2 : List (String × String)) (r : CassetteReplayer) :
    replayAll (l1 ++ l2) r =
      match replayAll l1 r with
      | .error e => .error e
      | .ok (o1, r1) =>
        match replayAll l2 r1 with
        | .error e => .error e
        | .ok (o2, r2) => .ok (o1 ++ o2, r2) := by
  induction l1 generalizing r with
  | nil =>
    cases h : replayAll l2 r with
    | error e => simp [replayAll, h]
    | ok pr => obtain ⟨o2, r2⟩ := pr; simp [replayAll, h]
  | cons pm rest ih =>
    obtain ⟨p, m⟩ := pm
    simp only [List.cons_append, replayAll]
    cases hn : r.nextInteraction p m with
    | error e => rfl
    | ok ir =>
      obtain ⟨i, r'⟩ := ir
      dsimp only
      simp only [List.append_eq]
      rw [ih r']
      cases h1 : replayAll rest r' with
      | error e => rfl
      | ok pr1 =>
        obtain ⟨o1, r1⟩ := pr1
        dsimp only
        cases h2 : replayAll l2 r1 with
        | error e => rfl
        | ok pr2 =>
          obtain ⟨o2, r2⟩ := pr2
          simp

theorem replayAll_replicate (c : Cassette) (p m : String)
    (g : PortMethodKey → Nat) (j : Nat)
    (hle : g ⟨p, m⟩ + j ≤ (portMethodStream c p m).length) :
    replayAll (List.replicate j (p, m)) (replayerOf c g) =
      .ok (((portMethodStream c p m).drop (g ⟨p, m⟩)).take j,
        replayerOf c (fun k => if k = ⟨p, m⟩ then g ⟨p, m⟩ + j else g k)) := by
  induction j generalizing g with
  | zero =>
    have hg : (fun k => if k = (⟨p, m⟩ : PortMethodKey) then g ⟨p, m⟩ + 0 else g k) = g := by
      funext k
      by_cases hk : k = ⟨p, m⟩ <;> simp [hk]
    rw [hg]
    simp [replayAll, replayerOf]
  | succ j ih =>
    have hlt : g ⟨p, m⟩ < (portMethodStream c p m).length := by omega
    rw [List.replicate_succ, replayAll, nextInteraction_mid c g p m hlt]
    dsimp only
    have hsimp : (if (⟨p, m⟩ : PortMethodKey) = ⟨p, m⟩ then g ⟨p, m⟩ + 1 else g ⟨p, m⟩) =
        g ⟨p, m⟩ + 1 := if_pos rfl
    have hle' : (if (⟨p, m⟩ : PortMethodKey) = ⟨p, m⟩ then g ⟨p, m⟩ + 1 else g ⟨p, m⟩) + j ≤
        (portMethodStream c p m).length := by
      rw [hsimp]
      omega
    rw [ih (fun k => if k = ⟨p, m⟩ then g ⟨p, m⟩ + 1 else g k) hle']
    simp only [hsimp, if_true]
    have hdrop : (portMethodStream c p m).drop (g ⟨p, m⟩) =
        (portMethodStream c p m).get ⟨g ⟨p, m⟩, hlt⟩ ::
          (portMethodStream c p m).drop (g ⟨p, m⟩ + 1) := by
      rw [List.drop_eq_getElem_cons hlt]
      rfl
    rw [hdrop, List.take_succ_cons]
    have hfun : (fun k => if k = (⟨p, m⟩ : PortMethodKey) then g ⟨p, m⟩ + 1 + j
        else if k = ⟨p, m⟩ then g ⟨p, m⟩ + 1 else g k) =
        (fun k => if k = (⟨p, m⟩ : PortMethodKey) then g ⟨p, m⟩ + (j + 1) else g k) := by
      funext k
      by_cases hk : k = ⟨p, m⟩
      · rw [if_pos hk, if_pos hk]
        omega
      · rw [if_neg hk, if_neg hk, if_neg hk]
    rw [hfun]

/-- C6: if the cassette holds exactly `n` interactions for a
`(port, method)` pair (with `n ≥ 1` so that a final interaction exists),
the first `n` `next_interaction` calls for the pair succeed, returning the
whole stream, and the `(n+1)`-th fails fatally with the exhaustion error
naming the stream and carrying the count of consumed interactions and the
`seq` of the final one. -/
theorem replay_exhaustion (c : Cassette) (p m : String)
    (hne : (portMethodStream c p m).isEmpty = false) :
    (∃ rf, replayAll (List.replicate (portMethodStream c p m).length (p, m))
        (CassetteReplayer.new c) = .ok (portMethodStream c p m, rf)) ∧
    replayAll (List.replicate ((portMethodStream c p m).length + 1) (p, m))
        (CassetteReplayer.new c) =
      .error (.exhausted (portMethodStream c p m).length
        (((portMethodStream c p m).getLast?.map Interaction.seq).getD 0) p m) := by
  have hrep := replayAll_replicate c p m (fun _ => 0)
    (portMethodStream c p m).length (by simp)
  constructor
  · refine ⟨replayerOf c (fun k => if k = ⟨p, m⟩ then
        0 + (portMethodStream c p m).length else 0), ?_⟩
    rw [new_eq_replayerOf, hrep]
    simp
  · rw [List.replicate_succ', new_eq_replayerOf, replayAll_append, hrep]
    dsimp only
    rw [replayAll]
    have hge : (portMethodStream c p m).length ≤
        (fun k => if k = (⟨p, m⟩ : PortMethodKey) then
          0 + (portMethodStream c p m).length else 0) ⟨p, m⟩ := by
      simp
    rw [nextInteraction_exhausted c _ p m hne hge]

/-- Witness for C6: the `llm::complete` stream of the example cassette has
two interactions; two calls succeed and the third fails with the
exhaustion error reporting count 2 and last seq 2. -/
theorem replay_exhaustion_witness :
    (∃ rf, replayAll (List.replicate
        (portMethodStream wCassette "llm" "complete").length ("llm", "complete"))
        (CassetteReplayer.new wCassette) =
      .ok (portMethodStream wCassette "llm" "complete", rf)) ∧
    replayAll (List.replicate
        ((portMethodStream wCassette "llm" "complete").length + 1) ("llm", "complete"))
        (CassetteReplayer.new wCassette) =
      .error (.exhausted (portMethodStream wCassette "llm" "complete").length
        (((portMethodStream wCassette "llm" "complete").getLast?.map
          Interaction.seq).getD 0) "llm" "complete") :=
  replay_exhaustion wCassette "llm" "complete" rfl

/-! ## Seq-blindness of the replayer -/

theorem reseqInteraction_key (f : Nat → Nat) (i : Interaction) :
    (reseqInteraction f i).key = i.key := rfl

theorem insertIntoQueues_reseq (f : Nat → Nat)
    (qs : List (PortMethodKey × List Interaction)) (i : Interaction) :
    insertIntoQueues (qs.map (fun kv => (kv.1, kv.2.map (reseqInteraction f))))
        (reseqInteraction f i) =
      (insertIntoQueues qs i).map (fun kv => (kv.1, kv.2.map (reseqInteraction f))) := by
  induction qs with
  | nil => simp [insertIntoQueues, reseqInteraction_key]
  | cons kv rest ih =>
    obtain ⟨k, q⟩ := kv
    by_cases hk : k = i.key
    · simp [insertIntoQueues, reseqInteraction_key, hk]
    · simp [insertIntoQueues, reseqInteraction_key, hk, ih]

theorem buildQueues_foldl_reseq (f : Nat → Nat) (l : List Interaction)
    (qs : List (PortMethodKey × List Interaction)) :
    (l.map (reseqInteraction f)).foldl insertIntoQueues
        (qs.map (fun kv => (kv.1, kv.2.map (reseqInteraction f)))) =
      (l.foldl insertIntoQueues qs).map
        (fun kv => (kv.1, kv.2.map (reseqInteraction f))) := by
  induction l generalizing qs with
  | nil => rfl
  | cons i rest ih =>
    simp only [List.map_cons, List.foldl_cons]
    rw [insertIntoQueues_reseq, ih]

theorem buildQueues_reseq (f : Nat → Nat) (l : List Interaction) :
    buildQueues (l.map (reseqInteraction f)) =
      (buildQueues l).map (fun kv => (kv.1, kv.2.map (reseqInteraction f))) := by
  unfold buildQueues
  have := buildQueues_foldl_reseq f l []
  simpa using this

theorem lookupQueue_map_reseq (f : Nat → Nat)
    (qs : List (PortMethodKey × List Interaction)) (k : PortMethodKey) :
    lookupQueue (qs.map (fun kv => (kv.1, kv.2.map (reseqInteraction f)))) k =
      (lookupQueue qs k).map (List.map (reseqInteraction f)) := by
  induction qs with
  | nil => rfl
  | cons kv rest ih =>
    obtain ⟨k', q⟩ := kv
    by_cases hk : k' = k
    · simp [lookupQueue_cons, hk]
    · simp [lookupQueue_cons, hk, ih]

theorem nextInteraction_reseq (f : Nat → Nat)
    (qs : List (PortMethodKey × List Interaction)) (g : PortMethodKey → Nat)
    (p m : String) (i : Interaction) (r' : CassetteReplayer)
    (h : CassetteReplayer.nextInteraction ⟨qs, g⟩ p m = .ok (i, r')) :
    r'.queues = qs ∧
    CassetteReplayer.nextInteraction
        ⟨qs.map (fun kv => (kv.1, kv.2.map (reseqInteraction f))), g⟩ p m =
      .ok (reseqInteraction f i,
        ⟨qs.map (fun kv => (kv.1, kv.2.map (reseqInteraction f))), r'.cursors⟩) := by
  unfold CassetteReplayer.nextInteraction at h ⊢
  dsimp only at h ⊢
  rw [lookupQueue_map_reseq]
  cases hq : lookupQueue qs ⟨p, m⟩ with
  | none => rw [hq] at h; exact absurd h (by simp)
  | some queue =>
    rw [hq] at h
    dsimp only at h ⊢
    by_cases hlt : g ⟨p, m⟩ < queue.length
    · rw [dif_pos hlt] at h
      simp only [Except.ok.injEq, Prod.mk.injEq] at h
      obtain ⟨hi, hr⟩ := h
      subst hi
      subst hr
      have hlt2 : g ⟨p, m⟩ < (queue.map (reseqInteraction f)).length := by
        simpa using hlt
      constructor
      · rfl
      · simp only [Option.map_some']
        rw [dif_pos hlt2]
        have hget : (queue.map (reseqInteraction f)).get ⟨g ⟨p, m⟩, hlt2⟩ =
            reseqInteraction f (queue.get ⟨g ⟨p, m⟩, hlt⟩) := by
          simp
        rw [hget]
    · rw [dif_neg hlt] at h
      exact absurd h (by simp)

theorem replayAll_reseq (f : Nat → Nat) (calls : List (String × String))
    (qs : List (PortMethodKey × List Interaction)) (g : PortMethodKey → Nat)
    (outs : List Interaction) (rfin : CassetteReplayer)
    (h : replayAll calls ⟨qs, g⟩ = .ok (outs, rfin)) :
    ∃ g2, replayAll calls
        ⟨qs.map (fun kv => (kv.1, kv.2.map (reseqInteraction f))), g⟩ =
      .ok (outs.map (reseqInteraction f),
        ⟨qs.map (fun kv => (kv.1, kv.2.map (reseqInteraction f))), g2⟩) := by
  induction calls generalizing g outs rfin with
  | nil =>
    rw [replayAll] at h
    simp only [Except.ok.injEq, Prod.mk.injEq] at h
    obtain ⟨houts, -⟩ := h
    subst houts
    exact ⟨g, rfl⟩
  | cons pm rest ih =>
    obtain ⟨p, m⟩ := pm
    rw [replayAll] at h
    cases hn : CassetteReplayer.nextInteraction ⟨qs, g⟩ p m with
    | error e => rw [hn] at h; exact absurd h (by simp)
    | ok ir =>
      obtain ⟨i, r1⟩ := ir
      rw [hn] at h
      dsimp only at h
      obtain ⟨hq1, hn2⟩ := nextInteraction_reseq f qs g p m i r1 hn
      have hr1 : r1 = ⟨qs, r1.cursors⟩ := by
        cases r1
        simp only at hq1
        rw [hq1]
      cases hrest : replayAll rest r1 with
      | error e => rw [hrest] at h; exact absurd h (by simp)
      | ok pr =>
        obtain ⟨outs1, r2⟩ := pr
        rw [hrest] at h
        simp only [Except.ok.injEq, Prod.mk.injEq] at h
        obtain ⟨houts, -⟩ := h
        subst houts
        rw [hr1] at hrest
        obtain ⟨g2, hsim⟩ := ih r1.cursors outs1 r2 hrest
        refine ⟨g2, ?_⟩
        rw [replayAll, hn2]
        dsimp only
        rw [hsim]
        rfl

/-- C10: `CassetteReplayer::new` buckets interactions by `(port, method)`
in cassette list order and never reads the `seq` field: each stream is
exactly the list-ordered filter of the interactions, and reassigning every
`seq` (in particular producing a cassette not ordered by `seq`) leaves the
outputs of any successful replay unchanged. -/
theorem replayer_ignores_seq :
    (∀ (c : Cassette) (p m : String),
      lookupQueue (CassetteReplayer.new c).queues ⟨p, m⟩ =
        if (portMethodStream c p m).isEmpty then none
        else some (portMethodStream c p m)) ∧
    (∀ (f : Nat → Nat) (c : Cassette) (calls : List (String × String))
      (outs : List Interaction) (rfin : CassetteReplayer),
      replayAll calls (CassetteReplayer.new c) = .ok (outs, rfin) →
      ∃ r2, replayAll calls (CassetteReplayer.new (reseqCassette f c)) =
          .ok (outs.map (reseqInteraction f), r2) ∧
        (outs.map (reseqInteraction f)).map Interaction.output =
          outs.map Interaction.output) := by
  constructor
  · exact fun c p m => lookupQueue_buildQueues c p m
  · intro f c calls outs rfin h
    have hnew : CassetteReplayer.new (reseqCassette f c) =
        ⟨(buildQueues c.interactions).map
          (fun kv => (kv.1, kv.2.map (reseqInteraction f))), fun _ => 0⟩ := by
      unfold CassetteReplayer.new reseqCassette
      simp only
      rw [buildQueues_reseq]
    have h0 : replayAll calls ⟨buildQueues c.interactions, fun _ => 0⟩ =
        .ok (outs, rfin) := h
    obtain ⟨g2, hsim⟩ := replayAll_reseq f calls (buildQueues c.interactions)
      (fun _ => 0) outs rfin h0
    refine ⟨⟨(buildQueues c.interactions).map
      (fun kv => (kv.1, kv.2.map (reseqInteraction f))), g2⟩, ?_, ?_⟩
    · rw [hnew]
      exact hsim
    · rw [List.map_map]
      apply List.map_congr_left
      intro i _
      rfl

/-- Witness for C10: reassigning every `seq` of the example cassette to 7
(making it unordered by seq) leaves the replayed outputs unchanged. -/
theorem replayer_ignores_seq_witness :
    ∃ r2, replayAll wCalls (CassetteReplayer.new
        (reseqCassette (fun _ => 7) wCassette)) =
      .ok (([wI1, wI2, wI3] : List Interaction).map (reseqInteraction (fun _ => 7)), r2) ∧
      (([wI1, wI2, wI3] : List Interaction).map
        (reseqInteraction (fun _ => 7))).map Interaction.output =
        ([wI1, wI2, wI3] : List Interaction).map Interaction.output :=
  replayer_ignores_seq.2 (fun _ => 7) wCassette wCalls [wI1, wI2, wI3] wFinal rfl

/-! ## Recorder seq assignment -/

theorem recordAll_seq (calls : List (String × String × Json × Json)) :
    ∀ r : CassetteRecorder,
      (recordAll r calls).interactions.map Interaction.seq =
        r.interactions.map Interaction.seq ++ List.range' r.nextSeq calls.length := by
  induction calls with
  | nil => intro r; simp [recordAll]
  | cons cc cs ih =>
    intro r
    have hstep : recordAll r (cc :: cs) =
        recordAll (r.record cc.1 cc.2.1 cc.2.2.1 cc.2.2.2) cs := rfl
    rw [hstep, ih]
    simp [CassetteRecorder.record, List.range'_succ, List.append_assoc]

/-- C7: after `N` `record` calls on a fresh recorder the recorded
interactions carry `seq` fields exactly `0, 1, …, N-1` in order — a dense
contiguous, strictly increasing, duplicate-free range `[0, N)`. -/
theorem recorder_seq_dense (path : List String) (name commit : String)
    (calls : List (String × String × Json × Json)) :
    (recordAll (CassetteRecorder.new path name commit) calls).interactions.map
      Interaction.seq = List.range calls.length := by
  rw [recordAll_seq]
  simp [CassetteRecorder.new, List.range_eq_range']

/-! ## Result envelope handling -/

/-- C2 (evaluation of the code at the failing input): the per-adapter
`extract_result` used by every replaying adapter accepts only the
lowercase envelope.  On the uppercase `{"Ok": payload}` envelope — exactly
what `record_result` writes, and what `replay_result` (unused by any
adapter) would accept — it fails to decode, and on `{"Err": msg}` it
reports a deserialization failure instead of `msg`. -/
theorem envelope_lowercase_only :
    extractResult decodeString (Json.obj [("Ok", Json.str "file contents")])
        "fs::read_to_string" =
      .error "fs::read_to_string: failed to deserialize" ∧
    recordResultOutput Json.str (.ok "file contents") =
      Json.obj [("Ok", Json.str "file contents")] ∧
    replayResult decodeString (Json.obj [("Ok", Json.str "file contents")]) =
      .ok "file contents" ∧
    extractResult decodeString (Json.obj [("ok", Json.str "file contents")])
        "fs::read_to_string" = .ok "file contents" ∧
    extractResult decodeString (Json.obj [("err", Json.str "boom")])
        "fs::read_to_string" = .error "boom" ∧
    extractResult decodeString (Json.obj [("Err", Json.str "boom")])
        "fs::read_to_string" =
      .error "fs::read_to_string: failed to deserialize" :=
  ⟨rfl, rfl, rfl, rfl, rfl, rfl⟩

/-! ## Service context wiring -/

/-- C3 (evaluation of the code at the failing input):
`ServiceContext::recording(path)` yields live adapters for clock, fs, git
and shell, panicking stubs for id_gen, llm and issues, and one monolithic
recorder — no port slot holds a recording adapter, no `RecordingSession`
is constructed, and only the context (no pair) is returned.  The crate's
own caller, `commands::dispatch`, invokes `ServiceContext::recording()`
expecting `Result<(ServiceContext, RecordingSession), _>`, matching the
spec instead of this definition. -/
theorem recording_constructor_wiring :
    ServiceContext.recording ["session.yaml"] =
      { clock := .live, fs := .live, git := .live, shell := .live,
        idGen := .panicking, llm := .panicking, issues := .panicking,
        recorder := some ["session.yaml"] } ∧
    ¬ ((ServiceContext.recording ["session.yaml"]).clock = .recording ∨
       (ServiceContext.recording ["session.yaml"]).fs = .recording ∨
       (ServiceContext.recording ["session.yaml"]).git = .recording ∨
       (ServiceContext.recording ["session.yaml"]).shell = .recording ∨
       (ServiceContext.recording ["session.yaml"]).idGen = .recording ∨
       (ServiceContext.recording ["session.yaml"]).llm = .recording ∨
       (ServiceContext.recording ["session.yaml"]).issues = .recording) :=
  ⟨rfl, by decide⟩

/-- C4 counterexample: it is false that `ServiceContext::live` installs the
real backend for every one of the seven ports. -/
theorem live_not_all_real :
    ¬ (ServiceContext.live.clock = AdapterKind.live ∧
       ServiceContext.live.fs = AdapterKind.live ∧
       ServiceContext.live.git = AdapterKind.live ∧
       ServiceContext.live.shell = AdapterKind.live ∧
       ServiceContext.live.idGen = AdapterKind.live ∧
       ServiceContext.live.llm = AdapterKind.live ∧
       ServiceContext.live.issues = AdapterKind.live) := by decide

/-- C4 amended: `ServiceContext::live` installs the real backend for
clock, fs, git and shell, and panicking stubs for id_gen, llm and issues
(so calls on those three ports panic for lack of an implementation). -/
theorem live_wiring :
    ServiceContext.live =
      { clock := .live, fs := .live, git := .live, shell := .live,
        idGen := .panicking, llm := .panicking, issues := .panicking,
        recorder := none } := rfl

/-! ## Recorder finish -/

/-- C5 counterexample: when the output path's parent directory does not
exist, `finish` (a plain `std::fs::write`) fails with NotFound, while the
spec-modelled finish (`finishSpec`: create parent directories, then
write) succeeds — so `finish` does not create parent directories. -/
theorem finish_no_mkdir_counterexample :
    CassetteRecorder.finish wSerialize wRecNoParent 42 wFs =
      .error IoError.notFound ∧
    CassetteRecorder.finishSpec wSerialize wRecNoParent 42 wFs =
      .ok ({ dirs := [["out"], []],
             files := [(["out", "x.yaml"], "yaml-text")] },
        ["out", "x.yaml"]) :=
  ⟨rfl, rfl⟩

/-- C5 amended: `finish` builds the cassette from the recorder state and
the wall-clock `now`, serializes it, and performs a single plain write to
the configured path, returning the path: it succeeds exactly when the
parent directory already exists (no directory creation, no atomic
temp-file rename), and surfaces a missing parent as a structured NotFound
I/O error. -/
theorem finish_plain_write (serialize : Cassette → Except String String)
    (r : CassetteRecorder) (now : Nat) (st : FsState) (yaml : String)
    (hs : serialize (Cassette.mk r.name now r.commit r.interactions) = .ok yaml) :
    (r.path.dropLast ∈ st.dirs →
      CassetteRecorder.finish serialize r now st =
        .ok ({ st with
          files := (r.path, yaml) :: st.files.filter (fun f => f.1 ≠ r.path) },
          r.path)) ∧
    (r.path.dropLast ∉ st.dirs →
      CassetteRecorder.finish serialize r now st = .error IoError.notFound) := by
  constructor
  · intro hp
    unfold CassetteRecorder.finish fsWrite
    dsimp only
    rw [hs]
    dsimp only
    rw [if_pos hp]
  · intro hp
    unfold CassetteRecorder.finish fsWrite
    dsimp only
    rw [hs]
    dsimp only
    rw [if_neg hp]

/-- Witness for C5's amended theorem: a recorder writing into the working
directory, whose parent exists, succeeds with the written file and
returns the path. -/
theorem finish_plain_write_witness :
    CassetteRecorder.finish wSerialize wRecRoot 42 wFs =
      .ok ({ wFs with
        files := (wRecRoot.path, "yaml-text") ::
          wFs.files.filter (fun f => f.1 ≠ wRecRoot.path) }, wRecRoot.path) :=
  (finish_plain_write wSerialize wRecRoot 42 wFs "yaml-text" rfl).1 (by decide)

/-! ## Drift detection -/

theorem driftScan_foldl (oldMap newMap : CodebaseMap)
    (links : List ResolvedLink) (acc : List String × List String) :
    links.foldl
      (fun acc link =>
        match link.resolvedPath with
        | none => acc
        | some path =>
          match oldMap.modules.find? (fun m => m.path = path),
                newMap.modules.find? (fun m => m.path = path) with
          | some _, none => (acc.1, acc.2 ++ [path])
          | some om, some nm =>
            if om.publicItems ≠ nm.publicItems ∨ om.dependencies ≠ nm.dependencies
            then (acc.1 ++ [path], acc.2)
            else acc
          | _, _ => acc) acc =
      (acc.1 ++ links.filterMap (changedOf oldMap newMap),
       acc.2 ++ links.filterMap (removedOf oldMap newMap)) := by
  induction links generalizing acc with
  | nil => simp
  | cons link rest ih =>
    rw [List.foldl_cons, ih]
    cases hpath : link.resolvedPath with
    | none => simp [List.filterMap_cons, changedOf, removedOf, hpath]
    | some path =>
      cases hold : oldMap.modules.find? (fun m => m.path = path) with
      | none =>
        simp [List.filterMap_cons, changedOf, removedOf, hpath, hold,
          isChangedModule, isRemovedModule]
      | some om =>
        cases hnew : newMap.modules.find? (fun m => m.path = path) with
        | none =>
          simp [List.filterMap_cons, changedOf, removedOf, hpath, hold, hnew,
            isChangedModule, isRemovedModule]
        | some nm =>
          by_cases hd : om.publicItems ≠ nm.publicItems ∨
              om.dependencies ≠ nm.dependencies
          · simp [List.filterMap_cons, changedOf, removedOf, hpath, hold, hnew,
              isChangedModule, isRemovedModule, hd, List.append_assoc]
          · simp [List.filterMap_cons, changedOf, removedOf, hpath, hold, hnew,
              isChangedModule, isRemovedModule, hd]

theorem driftScan_eq (oldMap newMap : CodebaseMap) (links : List ResolvedLink) :
    driftScan oldMap newMap links =
      (links.filterMap (changedOf oldMap newMap),
       links.filterMap (removedOf oldMap newMap)) := by
  unfold driftScan
  rw [driftScan_foldl]
  rfl

theorem checkSpecDrift_eq (linkage : LinkageResult) (oldMap newMap : CodebaseMap) :
    checkSpecDrift linkage oldMap newMap =
      if (linkage.links.filterMap (changedOf oldMap newMap)) = [] ∧
          (linkage.links.filterMap (removedOf oldMap newMap)) = [] then none
      else some
        ⟨linkage.specId,
          linkage.links.filterMap (changedOf oldMap newMap),
          linkage.links.filterMap (removedOf oldMap newMap),
          !(linkage.links.filterMap (removedOf oldMap newMap)).isEmpty ||
            decide (1 < (linkage.links.filterMap (changedOf oldMap newMap)).length)⟩ := by
  unfold checkSpecDrift
  rw [driftScan_eq]

/-- C9: (1) a module existing in both maps with different public items or
dependencies is flagged as changed, for every spec whose resolved links
reference it; (2) a module present in the old map and absent from the new
one is flagged as removed and re-planning is recommended; (3) re-planning
is also recommended whenever more than one referenced module changed;
(4) a spec none of whose resolved modules changed or was removed produces
no drift entry. -/
theorem detect_drift_props :
    (∀ (specs : List TaskSpec) (oldMap newMap : CodebaseMap) (s : TaskSpec)
      (path : String),
      s ∈ specs →
      path ∈ (resolve s oldMap).links.filterMap ResolvedLink.resolvedPath →
      isChangedModule oldMap newMap path = true →
      ∃ e ∈ (detectDrift specs oldMap newMap).entries,
        e.specId = s.id ∧ path ∈ e.changedModules) ∧
    (∀ (specs : List TaskSpec) (oldMap newMap : CodebaseMap) (s : TaskSpec)
      (path : String),
      s ∈ specs →
      path ∈ (resolve s oldMap).links.filterMap ResolvedLink.resolvedPath →
      isRemovedModule oldMap newMap path = true →
      ∃ e ∈ (detectDrift specs oldMap newMap).entries,
        e.specId = s.id ∧ path ∈ e.removedModules ∧ e.replanRecommended = true) ∧
    (∀ (linkage : LinkageResult) (oldMap newMap : CodebaseMap) (e : DriftEntry),
      checkSpecDrift linkage oldMap newMap = some e →
      1 < e.changedModules.length → e.replanRecommended = true) ∧
    (∀ (s : TaskSpec) (oldMap newMap : CodebaseMap),
      (∀ path ∈ (resolve s oldMap).links.filterMap ResolvedLink.resolvedPath,
        isChangedModule oldMap newMap path = false ∧
        isRemovedModule oldMap newMap path = false) →
      checkSpecDrift (resolve s oldMap) oldMap newMap = none) := by
  refine ⟨?_, ?_, ?_, ?_⟩
  · intro specs oldMap newMap s path hs hpath hchanged
    have hmem : path ∈ (resolve s oldMap).links.filterMap (changedOf oldMap newMap) := by
      rw [List.mem_filterMap] at hpath ⊢
      obtain ⟨link, hlink, hlp⟩ := hpath
      exact ⟨link, hlink, by simp [changedOf, hlp, hchanged]⟩
    have hne : ¬ ((resolve s oldMap).links.filterMap (changedOf oldMap newMap) = [] ∧
        (resolve s oldMap).links.filterMap (removedOf oldMap newMap) = []) := by
      intro hc
      rw [hc.1] at hmem
      exact absurd hmem (List.not_mem_nil path)
    have hcheck : checkSpecDrift (resolve s oldMap) oldMap newMap = some
        ⟨(resolve s oldMap).specId,
          (resolve s oldMap).links.filterMap (changedOf oldMap newMap),
          (resolve s oldMap).links.filterMap (removedOf oldMap newMap),
          !((resolve s oldMap).links.filterMap (removedOf oldMap newMap)).isEmpty ||
            decide (1 < ((resolve s oldMap).links.filterMap
              (changedOf oldMap newMap)).length)⟩ := by
      rw [checkSpecDrift_eq, if_neg hne]
    exact ⟨⟨(resolve s oldMap).specId,
      (resolve s oldMap).links.filterMap (changedOf oldMap newMap),
      (resolve s oldMap).links.filterMap (removedOf oldMap newMap),
      !((resolve s oldMap).links.filterMap (removedOf oldMap newMap)).isEmpty ||
        decide (1 < ((resolve s oldMap).links.filterMap
          (changedOf oldMap newMap)).length)⟩,
      List.mem_filterMap.mpr ⟨s, hs, hcheck⟩, rfl, hmem⟩
  · intro specs oldMap newMap s path hs hpath hremoved
    have hmem : path ∈ (resolve s oldMap).links.filterMap (removedOf oldMap newMap) := by
      rw [List.mem_filterMap] at hpath ⊢
      obtain ⟨link, hlink, hlp⟩ := hpath
      exact ⟨link, hlink, by simp [removedOf, hlp, hremoved]⟩
    have hne : ¬ ((resolve s oldMap).links.filterMap (changedOf oldMap newMap) = [] ∧
        (resolve s oldMap).links.filterMap (removedOf oldMap newMap) = []) := by
      intro hc
      rw [hc.2] at hmem
      exact absurd hmem (List.not_mem_nil path)
    have hcheck : checkSpecDrift (resolve s oldMap) oldMap newMap = some
        ⟨(resolve s oldMap).specId,
          (resolve s oldMap).links.filterMap (changedOf oldMap newMap),
          (resolve s oldMap).links.filterMap (removedOf oldMap newMap),
          !((resolve s oldMap).links.filterMap (removedOf oldMap newMap)).isEmpty ||
            decide (1 < ((resolve s oldMap).links.filterMap
              (changedOf oldMap newMap)).length)⟩ := by
      rw [checkSpecDrift_eq, if_neg hne]
    have hrepl : (!((resolve s oldMap).links.filterMap
        (removedOf oldMap newMap)).isEmpty ||
          decide (1 < ((resolve s oldMap).links.filterMap
            (changedOf oldMap newMap)).length)) = true := by
      have : ((resolve s oldMap).links.filterMap (removedOf oldMap newMap)).isEmpty
          = false := by
        cases hl : (resolve s oldMap).links.filterMap (removedOf oldMap newMap) with
        | nil => rw [hl] at hmem; exact absurd hmem (List.not_mem_nil path)
        | cons a l => rfl
      rw [this]
      rfl
    exact ⟨⟨(resolve s oldMap).specId,
      (resolve s oldMap).links.filterMap (changedOf oldMap newMap),
      (resolve s oldMap).links.filterMap (removedOf oldMap newMap),
      !((resolve s oldMap).links.filterMap (removedOf oldMap newMap)).isEmpty ||
        decide (1 < ((resolve s oldMap).links.filterMap
          (changedOf oldMap newMap)).length)⟩,
      List.mem_filterMap.mpr ⟨s, hs, hcheck⟩, rfl, hmem, hrepl⟩
  · intro linkage oldMap newMap e hck hlen
    rw [checkSpecDrift_eq] at hck
    by_cases hc : (linkage.links.filterMap (changedOf oldMap newMap) = [] ∧
        linkage.links.filterMap (removedOf oldMap newMap) = [])
    · rw [if_pos hc] at hck
      exact absurd hck (by simp)
    · rw [if_neg hc] at hck
      simp only [Option.some.injEq] at hck
      subst hck
      simp only at hlen ⊢
      rw [decide_eq_true hlen]
      exact Bool.or_true _
  · intro s oldMap newMap h
    have hch : (resolve s oldMap).links.filterMap (changedOf oldMap newMap) = [] := by
      rw [List.filterMap_eq_nil_iff]
      intro link hlink
      cases hlp : link.resolvedPath with
      | none => simp [changedOf, hlp]
      | some path =>
        have hmem : path ∈ (resolve s oldMap).links.filterMap
            ResolvedLink.resolvedPath := List.mem_filterMap.mpr ⟨link, hlink, hlp⟩
        simp [changedOf, hlp, (h path hmem).1]
    have hrm : (resolve s oldMap).links.filterMap (removedOf oldMap newMap) = [] := by
      rw [List.filterMap_eq_nil_iff]
      intro link hlink
      cases hlp : link.resolvedPath with
      | none => simp [removedOf, hlp]
      | some path =>
        have hmem : path ∈ (resolve s oldMap).links.filterMap
            ResolvedLink.resolvedPath := List.mem_filterMap.mpr ⟨link, hlink, hlp⟩
        simp [removedOf, hlp, (h path hmem).2]
    rw [checkSpecDrift_eq, if_pos ⟨hch, hrm⟩]

/-- Witness for C9: on the `MyService` example, a changed module is flagged
for the referencing spec; a removed module is flagged with re-planning
recommended; an entry with two changed modules recommends re-planning; and
identical maps produce no entry. -/
theorem detect_drift_props_witness :
    (∃ e ∈ (detectDrift [wSpecT1] wMapOld wMapNew).entries,
      e.specId = wSpecT1.id ∧ "src/service.rs" ∈ e.changedModules) ∧
    (∃ e ∈ (detectDrift [wSpecT1] wMapOld wMapGone).entries,
      e.specId = wSpecT1.id ∧ "src/service.rs" ∈ e.removedModules ∧
        e.replanRecommended = true) ∧
    (⟨"T-2", ["src/a.rs", "src/b.rs"], [], true⟩ : DriftEntry).replanRecommended
      = true ∧
    checkSpecDrift (resolve wSpecT1 wMapOld) wMapOld wMapOld = none :=
  ⟨detect_drift_props.1 [wSpecT1] wMapOld wMapNew wSpecT1 "src/service.rs"
      (by decide) (by decide) (by decide),
   detect_drift_props.2.1 [wSpecT1] wMapOld wMapGone wSpecT1 "src/service.rs"
      (by decide) (by decide) (by decide),
   detect_drift_props.2.2.1 (resolve wSpecT2 wMapTwoOld) wMapTwoOld wMapTwoNew
      ⟨"T-2", ["src/a.rs", "src/b.rs"], [], true⟩ (by decide) (by decide),
   detect_drift_props.2.2.2 wSpecT1 wMapOld wMapOld (by decide)⟩

/-! ## Cycle detection -/

theorem nodup_get_not_mem_take (l : List String) (hnd : l.Nodup) (i k : Nat)
    (hi : i < l.length) (hk : k ≤ i) : l.get ⟨i, hi⟩ ∉ l.take k := by
  intro hmem
  rw [List.mem_iff_getElem] at hmem
  obtain ⟨m, hm, hval⟩ := hmem
  have hmk : m < k := by
    have h2 := hm
    simp [List.length_take] at h2
    omega
  have hml : m < l.length := by
    have h2 := hm
    simp [List.length_take] at h2
    omega
  rw [List.getElem_take] at hval
  have h4 : m = i := by
    have h3 : l[m] = l[i] := by simpa using hval
    exact (List.Nodup.getElem_inj_iff hnd).mp h3
  omega

theorem lookupGraph_cons (k' : String) (v : List String)
    (rest : List (String × List String)) (k : String) :
    lookupGraph ((k', v) :: rest) k =
      if k' = k then some v else lookupGraph rest k := by
  by_cases h : k' = k <;> simp [lookupGraph, List.find?_cons, h]

theorem lookupGraph_map (D : TaskSpec → List String) :
    ∀ (specs : List TaskSpec), (specs.map TaskSpec.id).Nodup →
      ∀ (j : Nat) (hj : j < specs.length),
        lookupGraph (specs.map (fun s => (s.id, D s))) ((specs.get ⟨j, hj⟩).id) =
          some (D (specs.get ⟨j, hj⟩)) := by
  intro specs
  induction specs with
  | nil => intro _ j hj; exact absurd hj (by simp)
  | cons s rest ih =>
    intro hnd j hj
    rw [List.map_cons, List.nodup_cons] at hnd
    match j with
    | 0 =>
      rw [List.map_cons]
      show lookupGraph ((s.id, D s) :: _) s.id = some (D s)
      rw [lookupGraph_cons, if_pos rfl]
    | Nat.succ j' =>
      have hj' : j' < rest.length := by simpa using hj
      have hne : ¬ s.id = (rest.get ⟨j', hj'⟩).id := by
        intro hc
        apply hnd.1
        rw [hc]
        exact List.mem_map_of_mem TaskSpec.id (List.get_mem rest j' hj')
      have hget : (s :: rest).get ⟨j' + 1, hj⟩ = rest.get ⟨j', hj'⟩ := rfl
      rw [List.map_cons, hget]
      rw [lookupGraph_cons, if_neg hne]
      exact ih hnd.2 j' hj'

/-- Running the DFS on a spec set whose in-set dependencies form a single
directed cycle `v_0 → v_1 → … → v_{n-1} → v_0`, entered at position `j`
with the first `j` ids already gray, walks the rest of the cycle and
materializes exactly the full id list as one cycle. -/
theorem dfs_cycle_run (specs : List TaskSpec)
    (hnd : (specs.map TaskSpec.id).Nodup)
    (hcyc : ∀ (j : Nat) (hj : j < specs.length),
      filteredDeps (specs.map TaskSpec.id) (specs.get ⟨j, hj⟩) =
        [(specs.map TaskSpec.id).getD ((j + 1) % specs.length) ""]) :
    ∀ (fuel j : Nat), j < specs.length → specs.length - j ≤ fuel →
      ∀ (cycles : List (List String)),
      dfsFindCycles (specsGraph specs) fuel
        ((specs.map TaskSpec.id).getD j "")
        (((specs.map TaskSpec.id).take j).reverse)
        ((specs.map TaskSpec.id).take j) cycles =
      ((specs.map TaskSpec.id).reverse, cycles ++ [specs.map TaskSpec.id]) := by
  intro fuel
  induction fuel with
  | zero => intro j hj hfuel cycles; omega
  | succ fuel ih =>
    intro j hj hfuel cycles
    have hjm : j < (specs.map TaskSpec.id).length := by simpa using hj
    have hnode : (specs.map TaskSpec.id).getD j "" = (specs.get ⟨j, hj⟩).id := by
      rw [List.getD_eq_getElem _ _ hjm]
      simp
    have hlook : lookupGraph (specsGraph specs)
        ((specs.map TaskSpec.id).getD j "") =
        some (filteredDeps (specs.map TaskSpec.id) (specs.get ⟨j, hj⟩)) := by
      rw [hnode]
      exact lookupGraph_map _ specs hnd j hj
    rw [dfsFindCycles]
    rw [hlook, hcyc j hj]
    dsimp only [Option.getD]
    rw [List.foldl_cons, List.foldl_nil]
    dsimp only
    have hstack : (specs.map TaskSpec.id).take j ++
        [(specs.map TaskSpec.id).getD j ""] =
        (specs.map TaskSpec.id).take (j + 1) := by
      rw [List.getD_eq_getElem _ _ hjm]
      have h2 := List.take_concat_get (specs.map TaskSpec.id) j hjm
      simpa [List.concat_eq_append] using h2
    have hvis : (specs.map TaskSpec.id).getD j "" ::
        ((specs.map TaskSpec.id).take j).reverse =
        ((specs.map TaskSpec.id).take (j + 1)).reverse := by
      rw [← hstack, List.reverse_append]
      simp
    by_cases hc : j + 1 < specs.length
    · have hmod : (j + 1) % specs.length = j + 1 := Nat.mod_eq_of_lt hc
      simp only [hmod]
      have hj1m : j + 1 < (specs.map TaskSpec.id).length := by simpa using hc
      have hnm : (specs.map TaskSpec.id).getD (j + 1) "" ∉
          (specs.map TaskSpec.id).take (j + 1) := by
        rw [List.getD_eq_getElem _ _ hj1m]
        have h3 := nodup_get_not_mem_take (specs.map TaskSpec.id) hnd (j + 1)
          (j + 1) hj1m (Nat.le_refl _)
        simpa [List.get_eq_getElem] using h3
      have hcont : (((specs.map TaskSpec.id).getD j "" ::
          ((specs.map TaskSpec.id).take j).reverse).contains
            ((specs.map TaskSpec.id).getD (j + 1) "")) = false := by
        rw [hvis]
        simpa [List.mem_reverse] using hnm
      have hcond : ¬ (((specs.map TaskSpec.id).getD j "" ::
          ((specs.map TaskSpec.id).take j).reverse).contains
            ((specs.map TaskSpec.id).getD (j + 1) "")) = true := by
        rw [hcont]
        simp
      rw [if_neg hcond]
      rw [hvis, hstack]
      exact ih (j + 1) hc (by omega) cycles
    · have hjn : j + 1 = specs.length := by omega
      have hmod : (j + 1) % specs.length = 0 := by
        rw [hjn]
        exact Nat.mod_self _
      simp only [hmod]
      have hlen : (specs.map TaskSpec.id).length = specs.length := by simp
      have htake : (specs.map TaskSpec.id).take (j + 1) =
          specs.map TaskSpec.id := by
        rw [hjn, ← hlen, List.take_length]
      have h0m : 0 < (specs.map TaskSpec.id).length := by omega
      have hdep_mem : (specs.map TaskSpec.id).getD 0 "" ∈
          specs.map TaskSpec.id := by
        rw [List.getD_eq_getElem _ _ h0m]
        exact List.getElem_mem h0m
      have hcont1 : (((specs.map TaskSpec.id).getD j "" ::
          ((specs.map TaskSpec.id).take j).reverse).contains
            ((specs.map TaskSpec.id).getD 0 "")) = true := by
        rw [hvis, htake]
        simpa [List.mem_reverse] using hdep_mem
      rw [if_pos hcont1]
      have hcont2 : (((specs.map TaskSpec.id).take j ++
          [(specs.map TaskSpec.id).getD j ""]).contains
            ((specs.map TaskSpec.id).getD 0 "")) = true := by
        rw [hstack, htake]
        simpa using hdep_mem
      rw [if_pos hcont2]
      rw [hstack, htake, hvis, htake]
      have hfind : (specs.map TaskSpec.id).findIdx
          (fun x => x == (specs.map TaskSpec.id).getD 0 "") = 0 := by
        cases hids : specs.map TaskSpec.id with
        | nil => rw [hids] at h0m; exact absurd h0m (by simp)
        | cons a tl => simp [List.findIdx_cons]
      rw [hfind, List.drop_zero]

theorem detect_fold_skip (graph : List (String × List String)) (fuel : Nat) :
    ∀ (roots : List String) (acc : List String × List (List String)),
      (∀ x ∈ roots, acc.1.contains x = true) →
      roots.foldl
        (fun acc id =>
          if acc.1.contains id then acc
          else dfsFindCycles graph fuel id acc.1 [] acc.2) acc = acc := by
  intro roots
  induction roots with
  | nil => intro acc _; rfl
  | cons x xs ih =>
    intro acc h
    rw [List.foldl_cons, if_pos (h x (List.mem_cons_self x xs))]
    exact ih acc (fun y hy => h y (List.mem_cons_of_mem x hy))

theorem detect_single_cycle (specs : List TaskSpec)
    (hnd : (specs.map TaskSpec.id).Nodup) (hne : specs ≠ [])
    (hcyc : ∀ (j : Nat) (hj : j < specs.length),
      filteredDeps (specs.map TaskSpec.id) (specs.get ⟨j, hj⟩) =
        [(specs.map TaskSpec.id).getD ((j + 1) % specs.length) ""]) :
    detectCircularDependencies specs = [specs.map TaskSpec.id] := by
  have hpos : 0 < specs.length := List.length_pos.mpr hne
  have hrun := dfs_cycle_run specs hnd hcyc (specs.length + 1) 0 hpos (by omega) []
  simp only [List.take_zero, List.reverse_nil] at hrun
  have hmne : specs.map TaskSpec.id ≠ [] := by simpa using hne
  obtain ⟨id0, idsTail, hids⟩ := List.exists_cons_of_ne_nil hmne
  unfold detectCircularDependencies
  dsimp only
  rw [hids, List.foldl_cons, if_neg (by simp)]
  rw [hids] at hrun
  have h0 : (id0 :: idsTail).getD 0 "" = id0 := rfl
  rw [h0] at hrun
  rw [hrun]
  rw [detect_fold_skip]
  · simp
  · intro x hx
    simp [List.mem_reverse]
    exact Or.inl hx

theorem chain_mem_reflTransGen {R : String → String → Prop} :
    ∀ (l : List String), List.Chain' R l → ∀ a ∈ l, ∀ b ∈ l.getLast?,
      Relation.ReflTransGen R a b := by
  intro l
  induction l with
  | nil => intro _ a ha; exact absurd ha (List.not_mem_nil a)
  | cons x xs ih =>
    intro hc a ha b hb
    cases xs with
    | nil =>
      have ha2 : a = x := by simpa using ha
      have hb2 : x = b := by simpa using hb
      rw [ha2, hb2]
    | cons y ys =>
      have hc2 := List.chain'_cons.mp hc
      have hb2 : b ∈ (y :: ys).getLast? := by
        simpa [List.getLast?_cons_cons] using hb
      rcases List.mem_cons.mp ha with ha2 | ha2
      · subst ha2
        exact Relation.ReflTransGen.head hc2.1 (ih hc2.2 y (by simp) b hb2)
      · exact ih hc2.2 a ha2 b hb2

theorem dfs_fold_no_cycles (graph : List (String × List String))
    (hacyc : ∀ v, ¬ Relation.TransGen (GraphEdge graph) v v) (fuel : Nat)
    (ihfuel : ∀ (node : String) (visited stack : List String)
      (cycles : List (List String)),
      List.Chain' (GraphEdge graph) (stack ++ [node]) →
      (dfsFindCycles graph fuel node visited stack cycles).2 = cycles)
    (node : String) (stack : List String)
    (hchain : List.Chain' (GraphEdge graph) (stack ++ [node])) :
    ∀ (ds : List String), (∀ dep ∈ ds, GraphEdge graph node dep) →
      ∀ (acc : List String × List (List String)),
      (ds.foldl
        (fun acc dep =>
          if acc.1.contains dep then
            if (stack ++ [node]).contains dep then
              (acc.1, acc.2 ++ [(stack ++ [node]).drop
                ((stack ++ [node]).findIdx (fun n => n == dep))])
            else acc
          else dfsFindCycles graph fuel dep acc.1 (stack ++ [node]) acc.2)
        acc).2 = acc.2 := by
  intro ds
  induction ds with
  | nil => intro _ acc; rfl
  | cons dep rest ih =>
    intro hd acc
    rw [List.foldl_cons]
    by_cases h1 : acc.1.contains dep = true
    · by_cases h2 : (stack ++ [node]).contains dep = true
      · exfalso
        have hmem : dep ∈ stack ++ [node] := by simpa using h2
        have hlast : node ∈ (stack ++ [node]).getLast? := by
          rw [List.getLast?_concat]
          rfl
        have hrt := chain_mem_reflTransGen (stack ++ [node]) hchain dep hmem
          node hlast
        exact hacyc dep (Relation.TransGen.tail' hrt
          (hd dep (List.mem_cons_self dep rest)))
      · rw [if_pos h1, if_neg h2]
        exact ih (fun d hdm => hd d (List.mem_cons_of_mem dep hdm)) acc
    · rw [if_neg h1]
      have hchain2 : List.Chain' (GraphEdge graph) ((stack ++ [node]) ++ [dep]) := by
        rw [List.chain'_append]
        refine ⟨hchain, List.chain'_singleton dep, ?_⟩
        intro x hx y hy
        have hx2 : node = x := by simpa [List.getLast?_concat] using hx
        have hy2 : dep = y := by simpa using hy
        rw [← hx2, ← hy2]
        exact hd dep (List.mem_cons_self dep rest)
      rw [ih (fun d hdm => hd d (List.mem_cons_of_mem dep hdm)) _]
      exact ihfuel dep acc.1 (stack ++ [node]) acc.2 hchain2

theorem dfsFindCycles_acyclic (graph : List (String × List String))
    (hacyc : ∀ v, ¬ Relation.TransGen (GraphEdge graph) v v) :
    ∀ (fuel : Nat) (node : String) (visited stack : List String)
      (cycles : List (List String)),
      List.Chain' (GraphEdge graph) (stack ++ [node]) →
      (dfsFindCycles graph fuel node visited stack cycles).2 = cycles := by
  intro fuel
  induction fuel with
  | zero => intro node visited stack cycles _; rfl
  | succ fuel ih =>
    intro node visited stack cycles hchain
    have hdeps : ∀ dep ∈ (lookupGraph graph node).getD [],
        GraphEdge graph node dep := by
      cases hl : lookupGraph graph node with
      | none => simp
      | some deps => intro dep hdep; exact ⟨deps, hl, by simpa using hdep⟩
    exact dfs_fold_no_cycles graph hacyc fuel ih node stack hchain _ hdeps
      (node :: visited, cycles)

theorem detect_fold_acyclic (graph : List (String × List String))
    (hacyc : ∀ v, ¬ Relation.TransGen (GraphEdge graph) v v) (fuel : Nat) :
    ∀ (roots : List String) (acc : List String × List (List String)),
      (roots.foldl
        (fun acc id =>
          if acc.1.contains id then acc
          else dfsFindCycles graph fuel id acc.1 [] acc.2) acc).2 = acc.2 := by
  intro roots
  induction roots with
  | nil => intro acc; rfl
  | cons x xs ih =>
    intro acc
    rw [List.foldl_cons]
    by_cases h1 : acc.1.contains x = true
    · rw [if_pos h1]
      exact ih acc
    · rw [if_neg h1]
      rw [ih _]
      exact dfsFindCycles_acyclic graph hacyc fuel x acc.1 [] acc.2 (by simp)

theorem detect_acyclic (specs : List TaskSpec)
    (hacyc : ∀ v, ¬ Relation.TransGen (GraphEdge (specsGraph specs)) v v) :
    detectCircularDependencies specs = [] := by
  unfold detectCircularDependencies
  exact detect_fold_acyclic (specsGraph specs) hacyc (specs.length + 1)
    (specs.map TaskSpec.id) ([], [])

theorem detect_congr (specs specs' : List TaskSpec)
    (hids : specs.map TaskSpec.id = specs'.map TaskSpec.id)
    (hdeps : specs.map (fun s => filteredDeps (specs.map TaskSpec.id) s) =
      specs'.map (fun s => filteredDeps (specs'.map TaskSpec.id) s)) :
    detectCircularDependencies specs = detectCircularDependencies specs' := by
  have hlen : specs.length = specs'.length := by
    have h2 := congrArg List.length hids
    simpa using h2
  have hgraph : specsGraph specs = specsGraph specs' := by
    unfold specsGraph
    rw [← List.zip_map', ← List.zip_map' TaskSpec.id]
    exact congr (congrArg List.zip hids) hdeps
  unfold detectCircularDependencies
  rw [hids, hgraph, hlen]

/-- C8: (1) if the in-set dependencies of a duplicate-free, nonempty spec
set form a single directed cycle (each spec depends exactly on its cyclic
successor), the local cycle detection used by `reconcile` reports exactly
one cycle containing every participant; (2) for a dependency graph with no
directed cycle it reports zero cycles; (3) the result depends only on the
spec IDs and the in-set-filtered dependencies, so dependencies naming IDs
outside the spec set are ignored. -/
theorem reconcile_cycle_detection :
    (∀ specs : List TaskSpec,
      (specs.map TaskSpec.id).Nodup → specs ≠ [] →
      (∀ (j : Nat) (hj : j < specs.length),
        filteredDeps (specs.map TaskSpec.id) (specs.get ⟨j, hj⟩) =
          [(specs.map TaskSpec.id).getD ((j + 1) % specs.length) ""]) →
      detectCircularDependencies specs = [specs.map TaskSpec.id]) ∧
    (∀ specs : List TaskSpec,
      (∀ v, ¬ Relation.TransGen (GraphEdge (specsGraph specs)) v v) →
      detectCircularDependencies specs = []) ∧
    (∀ specs specs' : List TaskSpec,
      specs.map TaskSpec.id = specs'.map TaskSpec.id →
      specs.map (fun s => filteredDeps (specs.map TaskSpec.id) s) =
        specs'.map (fun s => filteredDeps (specs'.map TaskSpec.id) s) →
      detectCircularDependencies specs = detectCircularDependencies specs') :=
  ⟨detect_single_cycle, detect_acyclic, detect_congr⟩

theorem wDag_no_edge : ∀ a b : String, ¬ GraphEdge (specsGraph wDagSpecs) a b := by
  intro a b hedge
  obtain ⟨deps, hl, hm⟩ := hedge
  have hg : specsGraph wDagSpecs = [("A", [])] := rfl
  rw [hg, lookupGraph_cons] at hl
  by_cases ha : "A" = a
  · rw [if_pos ha] at hl
    have hd : ([] : List String) = deps := by simpa using hl
    rw [← hd] at hm
    exact absurd hm (List.not_mem_nil b)
  · rw [if_neg ha] at hl
    exact absurd hl (by simp [lookupGraph])

theorem wDag_acyclic :
    ∀ v, ¬ Relation.TransGen (GraphEdge (specsGraph wDagSpecs)) v v := by
  intro v h
  cases h with
  | single h1 => exact wDag_no_edge _ _ h1
  | tail h1 h2 => exact wDag_no_edge _ _ h2

/-- Witness for C8: the two-node cycle `T1 → T2 → T1` yields exactly the
cycle `[T1, T2]`; the one-spec DAG yields no cycles; and adding an
out-of-set dependency (`EXTERNAL`) does not change the result. -/
theorem reconcile_cycle_detection_witness :
    detectCircularDependencies wCycSpecs = [wCycSpecs.map TaskSpec.id] ∧
    detectCircularDependencies wDagSpecs = [] ∧
    detectCircularDependencies wExtSpecs = detectCircularDependencies wNoExtSpecs :=
  ⟨reconcile_cycle_detection.1 wCycSpecs (by decide) (by decide) (by decide),
   reconcile_cycle_detection.2.1 wDagSpecs wDag_acyclic,
   reconcile_cycle_detection.2.2 wExtSpecs wNoExtSpecs (by decide) (by decide)⟩

end Speck
